import Mathlib

/-!
# Page-fault simulator (`pfsim.c`): embedding and verified properties

The C program keeps three global tables and three counters:

* `pageTables[NUM_PROCESSES][NUM_PTES]`, an array of arrays of `pte`;
* `physicalMemory[NUM_PHYSICAL_PAGES]`, the reverse map, an array of `rme`;
* `numMemoryAccesses`, `numPageFaults`, `numDiskAccesses`, of type `int`.

The embedding passes them around as one `State` value.

Memory model.  `pageTables` is one object of `4 * 128` consecutive `pte`
records stored row after row, and the expression `pageTables[p][v]` designates
the record number `p * 128 + v` of that object; the source never compares `p`
or `v` with a bound.  The embedding therefore keeps the page tables as a map
from the record number to the record, and an access is defined exactly when
the record number is below `4 * 128`.  In the same way an access
`physicalMemory[i]` is defined exactly when `i < 32`.  An access that leaves
its object has no defined behaviour: the embedded function then yields `none`,
which never stands for an error reported by the program (the C functions have
no error result at all).

The `int` counters are embedded as mathematical integers.
-/

namespace Pfsim

/-! ## Constants and records -/

/-- Number of process slots, `#define NUM_PROCESSES 4`. -/
def NUM_PROCESSES : Nat := 4

/-- Number of page-table entries of one process, `#define NUM_PTES 128`. -/
def NUM_PTES : Nat := 128

/-- Number of physical frames, `#define NUM_PHYSICAL_PAGES 32`. -/
def NUM_PHYSICAL_PAGES : Nat := 32

/-- The enumeration `AccessType`. -/
inductive AccessType where
  | READ
  | WRITE
  deriving DecidableEq, Repr

/-- The record `Operation`: `uint8_t pid`, `uint16_t virtualPageNum`, `AccessType accessType`. -/
structure Operation where
  pid : Nat
  virtualPageNum : Nat
  accessType : AccessType
  deriving DecidableEq, Repr

/-- The page table entry `pte`: `bool valid`, `uint16_t pfn`. -/
structure pte where
  valid : Bool
  pfn : Nat
  deriving DecidableEq, Repr

/-- The reverse mapping entry `rme`: `avail`, `dirty`, `referenced`, `uint8_t proc`, `uint16_t vpn`. -/
structure rme where
  avail : Bool
  dirty : Bool
  referenced : Bool
  proc : Nat
  vpn : Nat
  deriving DecidableEq, Repr

/-- The global variables of the program. `pageTables` maps the record number
`p * NUM_PTES + v` to the record `pageTables[p][v]`. -/
structure State where
  pageTables : Nat → pte
  physicalMemory : Nat → rme
  numMemoryAccesses : Int
  numPageFaults : Int
  numDiskAccesses : Int

/-- Record number of `pageTables[p][v]` inside the object `pageTables`. -/
def ptIndex (p v : Nat) : Nat := p * NUM_PTES + v

/-- Number of `pte` records of the object `pageTables`. -/
def PT_SIZE : Nat := NUM_PROCESSES * NUM_PTES

/-- The value `(uint16_t)-1` that `evictPage` returns after its third loop. -/
def NO_VICTIM : Nat := 65535

/-! ## The functions of `pfsim.c` -/

/-- One `for` loop of the shape
`for (i = start; i < start + fuel; i++) if (test(physicalMemory[i])) { ...; return i; }`:
the index at which the loop body is entered, `none` when the loop runs to its end. -/
def scanFrames (test : rme → Bool) (mem : Nat → rme) : Nat → Nat → Option Nat
  | 0, _ => none
  | fuel + 1, i => if test (mem i) then some i else scanFrames test mem fuel (i + 1)

/-- The test of the first loop of `evictPage`: `!referenced && !dirty`. -/
def pass1 (f : rme) : Bool := !f.referenced && !f.dirty

/-- The test of the second loop of `evictPage`: `!referenced && dirty`. -/
def pass2 (f : rme) : Bool := !f.referenced && f.dirty

/-- The test of the third loop of `evictPage`: `referenced && dirty`. -/
def pass3 (f : rme) : Bool := f.referenced && f.dirty

/-- The two statements every loop body of `evictPage` ends with, for the frame `i` (`i < 32`
by the loop condition):
`pageTables[physicalMemory[i].proc][physicalMemory[i].vpn].valid = false;`
`physicalMemory[i].avail = true;`. -/
def releaseFrame (s : State) (i : Nat) : Option State :=
  let k := ptIndex (s.physicalMemory i).proc (s.physicalMemory i).vpn
  if k < PT_SIZE then
    some { s with
      pageTables := Function.update s.pageTables k { s.pageTables k with valid := false }
      physicalMemory := Function.update s.physicalMemory i { s.physicalMemory i with avail := true } }
  else none

/-- The statement `numDiskAccesses++;` that opens the body of the second and of the
third loop of `evictPage`. -/
def countWriteBack (s : State) : State := { s with numDiskAccesses := s.numDiskAccesses + 1 }

/-- The function `evictPage`: the state afterwards and the `uint16_t` it returns. -/
def evictPage (s : State) : Option (State × Nat) :=
  match scanFrames pass1 s.physicalMemory NUM_PHYSICAL_PAGES 0 with
  | some i => (releaseFrame s i).map (fun t => (t, i))
  | none =>
    match scanFrames pass2 s.physicalMemory NUM_PHYSICAL_PAGES 0 with
    | some i =>
      (releaseFrame (countWriteBack s) i).map (fun t => (t, i))
    | none =>
      match scanFrames pass3 s.physicalMemory NUM_PHYSICAL_PAGES 0 with
      | some i =>
        (releaseFrame (countWriteBack s) i).map (fun t => (t, i))
      | none => some (s, NO_VICTIM)

/-- The statements of `handlePageFault` after the frame index is known
(`availablePageIndex = idx`): allocate the frame, count the load, install the translation. -/
def installPage (s : State) (op : Operation) (idx : Nat) : Option State :=
  if idx < NUM_PHYSICAL_PAGES then
    let k := ptIndex op.pid op.virtualPageNum
    if k < PT_SIZE then
      some { s with
        physicalMemory := Function.update s.physicalMemory idx
          { s.physicalMemory idx with
            avail := false, proc := op.pid, vpn := op.virtualPageNum, dirty := false }
        numDiskAccesses := s.numDiskAccesses + 1
        pageTables := Function.update s.pageTables k { valid := true, pfn := idx } }
    else none
  else none

/-- The function `handlePageFault`. -/
def handlePageFault (s : State) (op : Operation) : Option State :=
  match scanFrames (fun f => f.avail) s.physicalMemory NUM_PHYSICAL_PAGES 0 with
  | some i => installPage s op i
  | none => (evictPage s).bind (fun r => installPage r.1 op r.2)

/-- The statements of `performOp` after the translation has been checked: set the dirty
bit on a `WRITE`, set the referenced bit, count the access. -/
def touchPage (s : State) (op : Operation) : Option State :=
  let k := ptIndex op.pid op.virtualPageNum
  if k < PT_SIZE then
    let f := (s.pageTables k).pfn
    if f < NUM_PHYSICAL_PAGES then
      let m1 := if op.accessType = AccessType.WRITE then
          Function.update s.physicalMemory f { s.physicalMemory f with dirty := true }
        else s.physicalMemory
      some { s with
        physicalMemory := Function.update m1 f { m1 f with referenced := true }
        numMemoryAccesses := s.numMemoryAccesses + 1 }
    else none
  else none

/-- The statement `numPageFaults++;` of `performOp`. -/
def countFault (s : State) : State := { s with numPageFaults := s.numPageFaults + 1 }

/-- The function `performOp`. -/
def performOp (s : State) (op : Operation) : Option State :=
  let k := ptIndex op.pid op.virtualPageNum
  if k < PT_SIZE then
    if (s.pageTables k).valid then touchPage s op
    else (handlePageFault (countFault s) op).bind
      (fun t => touchPage t op)
  else none

/-- The aging check of the loop of `parseFile`, run after each `performOp`:
`if (numMemoryAccesses % 200 == 0) for (i = 0; i < 32; i++) physicalMemory[i].referenced = false;`. -/
def agingCheck (s : State) : State :=
  if Int.tmod s.numMemoryAccesses 200 = 0 then
    { s with physicalMemory := fun i =>
        if i < NUM_PHYSICAL_PAGES then { s.physicalMemory i with referenced := false }
        else s.physicalMemory i }
  else s

/-- One turn of the loop of `parseFile` for an already decoded operation:
`performOp(op)` followed by the aging check. -/
def processOp (s : State) (op : Operation) : Option State :=
  (performOp s op).map agingCheck

/-- The loop of `parseFile` over a list of decoded operations. -/
def replay : State → List Operation → Option State
  | s, [] => some s
  | s, op :: ops => (processOp s op).bind (fun t => replay t ops)

/-- The globals as the program starts: objects of static storage are zeroed, the
counters are initialised to `0`. -/
def startState : State :=
  { pageTables := fun _ => { valid := false, pfn := 0 }
    physicalMemory := fun _ =>
      { avail := false, dirty := false, referenced := false, proc := 0, vpn := 0 }
    numMemoryAccesses := 0
    numPageFaults := 0
    numDiskAccesses := 0 }

/-- The function `initDataStructs`: both loop nests write the same record to every
element of their table (`proc = -1` is stored in a `uint8_t`, hence `255`). -/
def initDataStructs (s : State) : State :=
  { s with
    pageTables := fun k => if k < PT_SIZE then { valid := false, pfn := 33 } else s.pageTables k
    physicalMemory := fun i =>
      if i < NUM_PHYSICAL_PAGES then
        { avail := true, dirty := false, referenced := false, proc := 255, vpn := 129 }
      else s.physicalMemory i }

/-- The state in which `main` calls `parseFile`. -/
def initialState : State := initDataStructs startState

/-! ## Vocabulary of the specification -/

/-- An operation is in range: `pid < NUM_PROCESSES` and `virtualPageNum < NUM_PTES`. -/
def InRange (op : Operation) : Prop :=
  op.pid < NUM_PROCESSES ∧ op.virtualPageNum < NUM_PTES

instance (op : Operation) : Decidable (InRange op) := by
  unfold InRange; infer_instance

/-- States reached from the initial state by completed in-range operations, each
followed by the aging check. -/
inductive Reachable : State → Prop
  | init : Reachable initialState
  | step {s t : State} {op : Operation} :
      Reachable s → InRange op → processOp s op = some t → Reachable t


/-- Frame `i` is the first frame of the table that passes `test`. -/
def FirstFrame (test : rme → Bool) (s : State) (i : Nat) : Prop :=
  i < NUM_PHYSICAL_PAGES ∧ test (s.physicalMemory i) = true ∧
    ∀ k, k < i → test (s.physicalMemory k) = false

/-- No frame of the table passes `test`. -/
def NoFrame (test : rme → Bool) (s : State) : Prop :=
  ∀ k, k < NUM_PHYSICAL_PAGES → test (s.physicalMemory k) = false

/-- The owner fields of frame `i` designate a record inside `pageTables`. -/
def OwnerInTable (s : State) (i : Nat) : Prop :=
  ptIndex (s.physicalMemory i).proc (s.physicalMemory i).vpn < PT_SIZE

/-- Reverse-map consistency: every valid page-table entry of an in-range slot names a
frame that is occupied and owned by that very slot, and no valid entry names an
available frame. -/
def ReverseMapConsistent (s : State) : Prop :=
  (∀ p v, p < NUM_PROCESSES → v < NUM_PTES → (s.pageTables (ptIndex p v)).valid = true →
    (s.pageTables (ptIndex p v)).pfn < NUM_PHYSICAL_PAGES ∧
    (s.physicalMemory (s.pageTables (ptIndex p v)).pfn).avail = false ∧
    (s.physicalMemory (s.pageTables (ptIndex p v)).pfn).proc = p ∧
    (s.physicalMemory (s.pageTables (ptIndex p v)).pfn).vpn = v) ∧
  (∀ i, i < NUM_PHYSICAL_PAGES → (s.physicalMemory i).avail = true →
    ∀ p v, p < NUM_PROCESSES → v < NUM_PTES → (s.pageTables (ptIndex p v)).valid = true →
      (s.pageTables (ptIndex p v)).pfn ≠ i)

/-- The operations `READ` of process `p` on the pages `0, 1, ..., n - 1`, in this order. -/
def readsFrom (p : Nat) : Nat → List Operation
  | 0 => []
  | n + 1 => readsFrom p n ++ [{ pid := p, virtualPageNum := n, accessType := AccessType.READ }]

/-- A full memory for the examples: frame `i` holds page `i` of process `0`, which is
mapped to it; the frames from `r` on are referenced, those from `d` on are dirty. -/
def fullTable (r d : Nat) : State :=
  { pageTables := fun k =>
      if k < NUM_PHYSICAL_PAGES then { valid := true, pfn := k } else { valid := false, pfn := 33 }
    physicalMemory := fun i =>
      { avail := false, dirty := decide (d ≤ i), referenced := decide (r ≤ i), proc := 0, vpn := i }
    numMemoryAccesses := 40
    numPageFaults := 32
    numDiskAccesses := 35 }

/-- The first half of reverse-map consistency, on the two tables alone: every valid
entry of an in-range slot names an occupied frame owned by that slot. -/
def ForwardConsistent (pt : Nat → pte) (mem : Nat → rme) : Prop :=
  ∀ p v, p < NUM_PROCESSES → v < NUM_PTES → (pt (ptIndex p v)).valid = true →
    (pt (ptIndex p v)).pfn < NUM_PHYSICAL_PAGES ∧
    (mem (pt (ptIndex p v)).pfn).avail = false ∧
    (mem (pt (ptIndex p v)).pfn).proc = p ∧
    (mem (pt (ptIndex p v)).pfn).vpn = v


/-- The call `evictPage()` in state `s` selects frame `i`: whenever the call returns, it
returns `i`, and it does return when the owner fields of frame `i` designate a record
inside `pageTables`. -/
def Evicts (s : State) (i : Nat) : Prop :=
  (OwnerInTable s i → ∃ t, evictPage s = some (t, i)) ∧
  ∀ t r, evictPage s = some (t, r) → r = i

/-- A short trace for the examples. -/
def sampleTrace : List Operation :=
  [{ pid := 0, virtualPageNum := 0, accessType := AccessType.READ },
   { pid := 1, virtualPageNum := 5, accessType := AccessType.WRITE },
   { pid := 0, virtualPageNum := 0, accessType := AccessType.WRITE },
   { pid := 3, virtualPageNum := 127, accessType := AccessType.READ }]

/-- The state after `sampleTrace` has been replayed from the initial state. -/
def sampleState : State := (replay initialState sampleTrace).getD initialState

/-- The page an operation accesses: the pair `(pid, virtualPageNum)`. -/
def pageOf (op : Operation) : Nat × Nat := (op.pid, op.virtualPageNum)

/-- A trace of operations `READ` on pairwise distinct in-range pages. -/
def DistinctReads (ops : List Operation) : Prop :=
  (∀ op ∈ ops, InRange op) ∧ (∀ op ∈ ops, op.accessType = AccessType.READ) ∧
  (ops.map pageOf).Nodup

/-- The state after the operations `done` have each faulted into a free frame: the
three counters equal the number of operations, the frames below that number are occupied,
clean and referenced, the other frames are free, and the valid entries are exactly those
of the pages of `done`. -/
def Filled (done : List Operation) (s : State) : Prop :=
  s.numMemoryAccesses = done.length ∧ s.numPageFaults = done.length ∧
  s.numDiskAccesses = done.length ∧
  (∀ i, i < done.length → (s.physicalMemory i).avail = false ∧
    (s.physicalMemory i).dirty = false ∧ (s.physicalMemory i).referenced = true) ∧
  (∀ i, done.length ≤ i → i < NUM_PHYSICAL_PAGES → (s.physicalMemory i).avail = true) ∧
  (∀ p v, p < NUM_PROCESSES → v < NUM_PTES → (s.pageTables (ptIndex p v)).valid = true →
    (p, v) ∈ done.map pageOf) ∧
  (∀ op ∈ done, InRange op ∧ (s.pageTables (ptIndex op.pid op.virtualPageNum)).valid = true)

/-- The reverse map leads back, for every frame but `idx`: an occupied frame `j ≠ idx` has
owner fields in range, and the entry they designate is valid and names `j`. -/
def BackwardExcept (pt : Nat → pte) (mem : Nat → rme) (idx : Nat) : Prop :=
  ∀ j, j < NUM_PHYSICAL_PAGES → j ≠ idx → (mem j).avail = false →
    (mem j).proc < NUM_PROCESSES ∧ (mem j).vpn < NUM_PTES ∧
    (pt (ptIndex (mem j).proc (mem j).vpn)).valid = true ∧
    (pt (ptIndex (mem j).proc (mem j).vpn)).pfn = j

/-- The reverse map leads back: every occupied frame has owner fields in range, and the
entry they designate is valid and names the frame. -/
def BackwardConsistent (pt : Nat → pte) (mem : Nat → rme) : Prop :=
  ∀ j, j < NUM_PHYSICAL_PAGES → (mem j).avail = false →
    (mem j).proc < NUM_PROCESSES ∧ (mem j).vpn < NUM_PTES ∧
    (pt (ptIndex (mem j).proc (mem j).vpn)).valid = true ∧
    (pt (ptIndex (mem j).proc (mem j).vpn)).pfn = j

/-- The record numbers of the valid page-table entries. -/
def validEntries (s : State) : Finset Nat :=
  (Finset.range PT_SIZE).filter (fun k => (s.pageTables k).valid = true)

/-- The indices of the occupied frames. -/
def occupiedFrames (s : State) : Finset Nat :=
  (Finset.range NUM_PHYSICAL_PAGES).filter (fun i => (s.physicalMemory i).avail = false)

/-! ## Lemmas on the frame scans -/

theorem scanFrames_some {test : rme → Bool} {mem : Nat → rme} :
    ∀ {n i j : Nat}, scanFrames test mem n i = some j →
      i ≤ j ∧ j < i + n ∧ test (mem j) = true ∧ ∀ k, i ≤ k → k < j → test (mem k) = false := by
  intro n
  induction n with
  | zero => intro i j h; simp [scanFrames] at h
  | succ n ih =>
    intro i j h
    unfold scanFrames at h
    by_cases hc : test (mem i) = true
    · rw [if_pos hc] at h
      cases h
      exact ⟨le_refl _, by omega, hc, fun k h1 h2 => by omega⟩
    · rw [if_neg hc] at h
      obtain ⟨h1, h2, h3, h4⟩ := ih h
      refine ⟨by omega, by omega, h3, ?_⟩
      intro k hk1 hk2
      by_cases hki : k = i
      · subst hki; simpa using hc
      · exact h4 k (by omega) hk2

theorem scanFrames_none {test : rme → Bool} {mem : Nat → rme} :
    ∀ {n i : Nat}, scanFrames test mem n i = none →
      ∀ k, i ≤ k → k < i + n → test (mem k) = false := by
  intro n
  induction n with
  | zero => intro i _ k h1 h2; omega
  | succ n ih =>
    intro i h k h1 h2
    unfold scanFrames at h
    by_cases hc : test (mem i) = true
    · rw [if_pos hc] at h; cases h
    · rw [if_neg hc] at h
      by_cases hki : k = i
      · subst hki; simpa using hc
      · exact ih h k (by omega) (by omega)

theorem scanFrames_eq_some {test : rme → Bool} {mem : Nat → rme} :
    ∀ {n i j : Nat}, i ≤ j → j < i + n → test (mem j) = true →
      (∀ k, i ≤ k → k < j → test (mem k) = false) → scanFrames test mem n i = some j := by
  intro n
  induction n with
  | zero => intro i j h1 h2; omega
  | succ n ih =>
    intro i j h1 h2 h3 h4
    unfold scanFrames
    by_cases hij : i = j
    · subst hij; rw [if_pos h3]
    · have hi : test (mem i) = false := h4 i (le_refl _) (by omega)
      rw [if_neg (by simp [hi])]
      exact ih (by omega) (by omega) h3 (fun k hk1 hk2 => h4 k (by omega) hk2)

theorem scanFrames_eq_none {test : rme → Bool} {mem : Nat → rme} :
    ∀ {n i : Nat}, (∀ k, i ≤ k → k < i + n → test (mem k) = false) →
      scanFrames test mem n i = none := by
  intro n
  induction n with
  | zero => intro i _; rfl
  | succ n ih =>
    intro i h
    unfold scanFrames
    rw [if_neg (by simp [h i (le_refl _) (by omega)])]
    exact ih (fun k hk1 hk2 => h k (by omega) (by omega))

theorem scan_firstFrame {test : rme → Bool} {s : State} {i : Nat}
    (h : scanFrames test s.physicalMemory NUM_PHYSICAL_PAGES 0 = some i) : FirstFrame test s i := by
  obtain ⟨_, h2, h3, h4⟩ := scanFrames_some h
  exact ⟨by omega, h3, fun k hk => h4 k (Nat.zero_le _) hk⟩

theorem scan_noFrame {test : rme → Bool} {s : State}
    (h : scanFrames test s.physicalMemory NUM_PHYSICAL_PAGES 0 = none) : NoFrame test s :=
  fun k hk => scanFrames_none h k (Nat.zero_le _) (by omega)

theorem firstFrame_scan {test : rme → Bool} {s : State} {i : Nat} (h : FirstFrame test s i) :
    scanFrames test s.physicalMemory NUM_PHYSICAL_PAGES 0 = some i :=
  scanFrames_eq_some (Nat.zero_le _) (by have := h.1; omega) h.2.1 (fun k _ hk => h.2.2 k hk)

theorem noFrame_scan {test : rme → Bool} {s : State} (h : NoFrame test s) :
    scanFrames test s.physicalMemory NUM_PHYSICAL_PAGES 0 = none :=
  scanFrames_eq_none (fun k _ hk => h k (by omega))

/-! ## Lemmas on `evictPage` -/

theorem releaseFrame_eq {s : State} {i : Nat} (h : OwnerInTable s i) :
    releaseFrame s i = some { s with
      pageTables := Function.update s.pageTables
        (ptIndex (s.physicalMemory i).proc (s.physicalMemory i).vpn)
        { s.pageTables (ptIndex (s.physicalMemory i).proc (s.physicalMemory i).vpn) with
          valid := false }
      physicalMemory :=
        Function.update s.physicalMemory i { s.physicalMemory i with avail := true } } := by
  unfold OwnerInTable at h
  simp [releaseFrame, h]

theorem releaseFrame_some {s t : State} {i : Nat} (h : releaseFrame s i = some t) :
    OwnerInTable s i ∧
    t.pageTables = Function.update s.pageTables
        (ptIndex (s.physicalMemory i).proc (s.physicalMemory i).vpn)
        { s.pageTables (ptIndex (s.physicalMemory i).proc (s.physicalMemory i).vpn) with
          valid := false } ∧
    t.physicalMemory =
        Function.update s.physicalMemory i { s.physicalMemory i with avail := true } ∧
    t.numMemoryAccesses = s.numMemoryAccesses ∧ t.numPageFaults = s.numPageFaults ∧
    t.numDiskAccesses = s.numDiskAccesses := by
  by_cases hk : OwnerInTable s i
  · rw [releaseFrame_eq hk] at h
    cases h
    exact ⟨hk, rfl, rfl, rfl, rfl, rfl⟩
  · unfold OwnerInTable at hk
    simp [releaseFrame, hk] at h

/-- The four ways `evictPage` can come to its end. -/
theorem evictPage_cases {s t : State} {r : Nat} (h : evictPage s = some (t, r)) :
    (FirstFrame pass1 s r ∧ releaseFrame s r = some t) ∨
    (NoFrame pass1 s ∧ FirstFrame pass2 s r ∧ releaseFrame (countWriteBack s) r = some t) ∨
    (NoFrame pass1 s ∧ NoFrame pass2 s ∧ FirstFrame pass3 s r ∧
      releaseFrame (countWriteBack s) r = some t) ∨
    (NoFrame pass1 s ∧ NoFrame pass2 s ∧ NoFrame pass3 s ∧ t = s ∧ r = NO_VICTIM) := by
  unfold evictPage at h
  cases h1 : scanFrames pass1 s.physicalMemory NUM_PHYSICAL_PAGES 0 with
  | some i =>
    rw [h1] at h
    simp only [Option.map_eq_some', Prod.mk.injEq] at h
    obtain ⟨a, ha, rfl, rfl⟩ := h
    exact Or.inl ⟨scan_firstFrame h1, ha⟩
  | none =>
    rw [h1] at h
    cases h2 : scanFrames pass2 s.physicalMemory NUM_PHYSICAL_PAGES 0 with
    | some i =>
      rw [h2] at h
      simp only [Option.map_eq_some', Prod.mk.injEq] at h
      obtain ⟨a, ha, rfl, rfl⟩ := h
      exact Or.inr (Or.inl ⟨scan_noFrame h1, scan_firstFrame h2, ha⟩)
    | none =>
      rw [h2] at h
      cases h3 : scanFrames pass3 s.physicalMemory NUM_PHYSICAL_PAGES 0 with
      | some i =>
        rw [h3] at h
        simp only [Option.map_eq_some', Prod.mk.injEq] at h
        obtain ⟨a, ha, rfl, rfl⟩ := h
        exact Or.inr (Or.inr (Or.inl ⟨scan_noFrame h1, scan_noFrame h2, scan_firstFrame h3, ha⟩))
      | none =>
        rw [h3] at h
        simp only [Option.some.injEq, Prod.mk.injEq] at h
        exact Or.inr (Or.inr (Or.inr
          ⟨scan_noFrame h1, scan_noFrame h2, scan_noFrame h3, h.1.symm, h.2.symm⟩))

theorem evictPage_pass1 {s : State} {i : Nat} (h : FirstFrame pass1 s i) :
    evictPage s = (releaseFrame s i).map (fun t => (t, i)) := by
  unfold evictPage
  rw [firstFrame_scan h]

theorem evictPage_pass2 {s : State} {i : Nat} (h1 : NoFrame pass1 s) (h : FirstFrame pass2 s i) :
    evictPage s = (releaseFrame (countWriteBack s) i).map (fun t => (t, i)) := by
  unfold evictPage
  rw [noFrame_scan h1, firstFrame_scan h]

theorem evictPage_pass3 {s : State} {i : Nat} (h1 : NoFrame pass1 s) (h2 : NoFrame pass2 s)
    (h : FirstFrame pass3 s i) :
    evictPage s = (releaseFrame (countWriteBack s) i).map (fun t => (t, i)) := by
  unfold evictPage
  rw [noFrame_scan h1, noFrame_scan h2, firstFrame_scan h]

theorem evictPage_noVictim {s : State} (h1 : NoFrame pass1 s) (h2 : NoFrame pass2 s)
    (h3 : NoFrame pass3 s) : evictPage s = some (s, NO_VICTIM) := by
  unfold evictPage
  rw [noFrame_scan h1, noFrame_scan h2, noFrame_scan h3]


/-! ## Lemmas on the page-table index -/

theorem ptIndex_inj {p v q w : Nat} (hv : v < NUM_PTES) (hw : w < NUM_PTES)
    (h : ptIndex p v = ptIndex q w) : p = q ∧ v = w := by
  unfold ptIndex NUM_PTES at *
  omega

theorem ptIndex_lt {p v : Nat} (hp : p < NUM_PROCESSES) (hv : v < NUM_PTES) :
    ptIndex p v < PT_SIZE := by
  unfold ptIndex PT_SIZE NUM_PTES NUM_PROCESSES at *
  omega

theorem inRange_lt {op : Operation} (h : InRange op) :
    ptIndex op.pid op.virtualPageNum < PT_SIZE := ptIndex_lt h.1 h.2

/-! ## What each piece of `performOp` does to the state -/

theorem installPage_some {s t : State} {op : Operation} {idx : Nat}
    (h : installPage s op idx = some t) :
    idx < NUM_PHYSICAL_PAGES ∧ ptIndex op.pid op.virtualPageNum < PT_SIZE ∧
    t.pageTables = Function.update s.pageTables (ptIndex op.pid op.virtualPageNum)
      { valid := true, pfn := idx } ∧
    t.physicalMemory = Function.update s.physicalMemory idx
      { s.physicalMemory idx with
        avail := false, proc := op.pid, vpn := op.virtualPageNum, dirty := false } ∧
    t.numMemoryAccesses = s.numMemoryAccesses ∧ t.numPageFaults = s.numPageFaults ∧
    t.numDiskAccesses = s.numDiskAccesses + 1 := by
  unfold installPage at h
  by_cases h1 : idx < NUM_PHYSICAL_PAGES
  · by_cases h2 : ptIndex op.pid op.virtualPageNum < PT_SIZE
    · simp only [h1, h2, if_true, Option.some.injEq] at h
      subst h
      exact ⟨h1, h2, rfl, rfl, rfl, rfl, rfl⟩
    · simp [h1, h2] at h
  · simp [h1] at h

theorem installPage_isSome (s : State) (op : Operation) {idx : Nat}
    (h1 : idx < NUM_PHYSICAL_PAGES) (h2 : ptIndex op.pid op.virtualPageNum < PT_SIZE) :
    ∃ t, installPage s op idx = some t := by
  unfold installPage
  simp [h1, h2]

theorem touchPage_some {s t : State} {op : Operation} (h : touchPage s op = some t) :
    ptIndex op.pid op.virtualPageNum < PT_SIZE ∧
    (s.pageTables (ptIndex op.pid op.virtualPageNum)).pfn < NUM_PHYSICAL_PAGES ∧
    t.pageTables = s.pageTables ∧
    (∀ j, (t.physicalMemory j).avail = (s.physicalMemory j).avail ∧
      (t.physicalMemory j).proc = (s.physicalMemory j).proc ∧
      (t.physicalMemory j).vpn = (s.physicalMemory j).vpn) ∧
    (∀ j, j ≠ (s.pageTables (ptIndex op.pid op.virtualPageNum)).pfn →
      t.physicalMemory j = s.physicalMemory j) ∧
    (t.physicalMemory (s.pageTables (ptIndex op.pid op.virtualPageNum)).pfn).referenced = true ∧
    (t.physicalMemory (s.pageTables (ptIndex op.pid op.virtualPageNum)).pfn).dirty =
      (if op.accessType = AccessType.WRITE then true
       else (s.physicalMemory (s.pageTables (ptIndex op.pid op.virtualPageNum)).pfn).dirty) ∧
    t.numMemoryAccesses = s.numMemoryAccesses + 1 ∧ t.numPageFaults = s.numPageFaults ∧
    t.numDiskAccesses = s.numDiskAccesses := by
  unfold touchPage at h
  by_cases h1 : ptIndex op.pid op.virtualPageNum < PT_SIZE
  · by_cases h2 : (s.pageTables (ptIndex op.pid op.virtualPageNum)).pfn < NUM_PHYSICAL_PAGES
    · simp only [h1, h2, if_true, Option.some.injEq] at h
      subst h
      refine ⟨h1, h2, rfl, ?_, ?_, ?_, ?_, rfl, rfl, rfl⟩
      · intro j
        by_cases hw : op.accessType = AccessType.WRITE <;>
          by_cases hj : j = (s.pageTables (ptIndex op.pid op.virtualPageNum)).pfn <;>
          simp [hw, hj, Function.update_apply]
      · intro j hj
        by_cases hw : op.accessType = AccessType.WRITE <;> simp [hw, hj, Function.update_apply]
      · simp
      · by_cases hw : op.accessType = AccessType.WRITE <;> simp [hw]
    · simp [h1, h2] at h
  · simp [h1] at h

theorem touchPage_isSome (s : State) (op : Operation)
    (h1 : ptIndex op.pid op.virtualPageNum < PT_SIZE)
    (h2 : (s.pageTables (ptIndex op.pid op.virtualPageNum)).pfn < NUM_PHYSICAL_PAGES) :
    ∃ t, touchPage s op = some t := by
  unfold touchPage
  simp [h1, h2]

theorem handlePageFault_cases {s t : State} {op : Operation}
    (h : handlePageFault s op = some t) :
    (∃ i, FirstFrame (fun f => f.avail) s i ∧ installPage s op i = some t) ∨
    (NoFrame (fun f => f.avail) s ∧
      ∃ u r, evictPage s = some (u, r) ∧ installPage u op r = some t) := by
  unfold handlePageFault at h
  cases h1 : scanFrames (fun f => f.avail) s.physicalMemory NUM_PHYSICAL_PAGES 0 with
  | some i =>
    rw [h1] at h
    exact Or.inl ⟨i, scan_firstFrame h1, h⟩
  | none =>
    rw [h1] at h
    simp only [Option.bind_eq_some] at h
    obtain ⟨⟨u, r⟩, h2, h3⟩ := h
    exact Or.inr ⟨scan_noFrame h1, u, r, h2, h3⟩

theorem handlePageFault_free {s : State} {op : Operation} {i : Nat}
    (h : FirstFrame (fun f => f.avail) s i) : handlePageFault s op = installPage s op i := by
  unfold handlePageFault
  rw [firstFrame_scan h]

theorem handlePageFault_full {s : State} {op : Operation}
    (h : NoFrame (fun f => f.avail) s) :
    handlePageFault s op = (evictPage s).bind (fun r => installPage r.1 op r.2) := by
  unfold handlePageFault
  rw [noFrame_scan h]

theorem performOp_hit {s : State} {op : Operation}
    (hk : ptIndex op.pid op.virtualPageNum < PT_SIZE)
    (hv : (s.pageTables (ptIndex op.pid op.virtualPageNum)).valid = true) :
    performOp s op = touchPage s op := by
  unfold performOp
  simp [hk, hv]

theorem performOp_fault {s : State} {op : Operation}
    (hk : ptIndex op.pid op.virtualPageNum < PT_SIZE)
    (hv : (s.pageTables (ptIndex op.pid op.virtualPageNum)).valid = false) :
    performOp s op = (handlePageFault (countFault s) op).bind (fun t => touchPage t op) := by
  unfold performOp
  simp [hk, hv]

theorem reverseMapConsistent_iff (s : State) :
    ReverseMapConsistent s ↔ ForwardConsistent s.pageTables s.physicalMemory := by
  constructor
  · exact fun h => h.1
  · intro h
    refine ⟨h, ?_⟩
    intro i _ hav p v hp hv hval hpfn
    have h1 := (h p v hp hv hval).2.1
    rw [hpfn, hav] at h1
    cases h1

/-- Releasing frame `i` keeps the forward map consistent and leaves no valid entry
naming frame `i`. -/
theorem forward_release {pt : Nat → pte} {mem : Nat → rme} (i : Nat)
    (h : ForwardConsistent pt mem) :
    ForwardConsistent
      (Function.update pt (ptIndex (mem i).proc (mem i).vpn)
        { pt (ptIndex (mem i).proc (mem i).vpn) with valid := false })
      (Function.update mem i { mem i with avail := true }) ∧
    ∀ p v, p < NUM_PROCESSES → v < NUM_PTES →
      ((Function.update pt (ptIndex (mem i).proc (mem i).vpn)
        { pt (ptIndex (mem i).proc (mem i).vpn) with valid := false }) (ptIndex p v)).valid = true →
      ((Function.update pt (ptIndex (mem i).proc (mem i).vpn)
        { pt (ptIndex (mem i).proc (mem i).vpn) with valid := false }) (ptIndex p v)).pfn ≠ i := by
  have key : ∀ p v, p < NUM_PROCESSES → v < NUM_PTES →
      ((Function.update pt (ptIndex (mem i).proc (mem i).vpn)
        { pt (ptIndex (mem i).proc (mem i).vpn) with valid := false }) (ptIndex p v)).valid = true →
      ptIndex p v ≠ ptIndex (mem i).proc (mem i).vpn ∧ (pt (ptIndex p v)).valid = true ∧
      (pt (ptIndex p v)).pfn ≠ i := by
    intro p v hp hv hval
    by_cases hk : ptIndex p v = ptIndex (mem i).proc (mem i).vpn
    · rw [hk] at hval
      simp at hval
    · rw [Function.update_noteq hk] at hval
      refine ⟨hk, hval, ?_⟩
      intro hpi
      obtain ⟨_, _, h3, h4⟩ := h p v hp hv hval
      rw [hpi] at h3 h4
      rw [h3, h4] at hk
      exact hk rfl
  constructor
  · intro p v hp hv hval
    obtain ⟨hk, hval0, hne⟩ := key p v hp hv hval
    rw [Function.update_noteq hk, Function.update_noteq hne]
    exact h p v hp hv hval0
  · intro p v hp hv hval
    obtain ⟨hk, _, hne⟩ := key p v hp hv hval
    rw [Function.update_noteq hk]
    exact hne

/-- Installing the page of an in-range operation in a frame that no valid entry names
keeps the forward map consistent. -/
theorem forward_install {pt : Nat → pte} {mem : Nat → rme} {op : Operation} {idx : Nat}
    (hop : InRange op) (hidx : idx < NUM_PHYSICAL_PAGES) (h : ForwardConsistent pt mem)
    (hfree : ∀ p v, p < NUM_PROCESSES → v < NUM_PTES → (pt (ptIndex p v)).valid = true →
      (pt (ptIndex p v)).pfn ≠ idx) :
    ForwardConsistent
      (Function.update pt (ptIndex op.pid op.virtualPageNum) { valid := true, pfn := idx })
      (Function.update mem idx
        { mem idx with avail := false, proc := op.pid, vpn := op.virtualPageNum, dirty := false }) := by
  intro p v hp hv hval
  by_cases hk : ptIndex p v = ptIndex op.pid op.virtualPageNum
  · obtain ⟨hp1, hv1⟩ := ptIndex_inj hv hop.2 hk
    rw [hk, Function.update_same]
    show idx < NUM_PHYSICAL_PAGES ∧ _
    rw [Function.update_same]
    exact ⟨hidx, rfl, hp1.symm, hv1.symm⟩
  · rw [Function.update_noteq hk] at hval ⊢
    have hne := hfree p v hp hv hval
    rw [Function.update_noteq hne]
    exact h p v hp hv hval

/-- A frame table that differs only in the dirty and referenced bits keeps the forward
map consistent. -/
theorem forward_bits {pt : Nat → pte} {mem mem2 : Nat → rme} (h : ForwardConsistent pt mem)
    (hm : ∀ j, (mem2 j).avail = (mem j).avail ∧ (mem2 j).proc = (mem j).proc ∧
      (mem2 j).vpn = (mem j).vpn) : ForwardConsistent pt mem2 := by
  intro p v hp hv hval
  obtain ⟨h1, h2, h3, h4⟩ := h p v hp hv hval
  obtain ⟨m1, m2, m3⟩ := hm (pt (ptIndex p v)).pfn
  exact ⟨h1, by rw [m1, h2], by rw [m2, h3], by rw [m3, h4]⟩

theorem agingCheck_fields (s : State) :
    (agingCheck s).pageTables = s.pageTables ∧
    (∀ j, ((agingCheck s).physicalMemory j).avail = (s.physicalMemory j).avail ∧
      ((agingCheck s).physicalMemory j).proc = (s.physicalMemory j).proc ∧
      ((agingCheck s).physicalMemory j).vpn = (s.physicalMemory j).vpn ∧
      ((agingCheck s).physicalMemory j).dirty = (s.physicalMemory j).dirty) ∧
    (agingCheck s).numMemoryAccesses = s.numMemoryAccesses ∧
    (agingCheck s).numPageFaults = s.numPageFaults ∧
    (agingCheck s).numDiskAccesses = s.numDiskAccesses := by
  unfold agingCheck
  by_cases h : Int.tmod s.numMemoryAccesses 200 = 0
  · rw [if_pos h]
    refine ⟨rfl, ?_, rfl, rfl, rfl⟩
    intro j
    by_cases hj : j < NUM_PHYSICAL_PAGES <;> simp [hj]
  · rw [if_neg h]
    exact ⟨rfl, fun _ => ⟨rfl, rfl, rfl, rfl⟩, rfl, rfl, rfl⟩

theorem forward_releaseFrame {s t : State} {i : Nat} (h : releaseFrame s i = some t)
    (hs : ForwardConsistent s.pageTables s.physicalMemory) :
    ForwardConsistent t.pageTables t.physicalMemory ∧
    ∀ p v, p < NUM_PROCESSES → v < NUM_PTES → (t.pageTables (ptIndex p v)).valid = true →
      (t.pageTables (ptIndex p v)).pfn ≠ i := by
  obtain ⟨_, hpt, hmem, _⟩ := releaseFrame_some h
  rw [hpt, hmem]
  exact forward_release i hs

theorem forward_installPage {s t : State} {op : Operation} {idx : Nat} (hop : InRange op)
    (h : installPage s op idx = some t)
    (hs : ForwardConsistent s.pageTables s.physicalMemory)
    (hfree : ∀ p v, p < NUM_PROCESSES → v < NUM_PTES →
      (s.pageTables (ptIndex p v)).valid = true → (s.pageTables (ptIndex p v)).pfn ≠ idx) :
    ForwardConsistent t.pageTables t.physicalMemory := by
  obtain ⟨hidx, _, hpt, hmem, _⟩ := installPage_some h
  rw [hpt, hmem]
  exact forward_install hop hidx hs hfree

theorem forward_touchPage {s t : State} {op : Operation} (h : touchPage s op = some t)
    (hs : ForwardConsistent s.pageTables s.physicalMemory) :
    ForwardConsistent t.pageTables t.physicalMemory := by
  obtain ⟨_, _, hpt, hm, _⟩ := touchPage_some h
  rw [hpt]
  exact forward_bits hs hm

theorem forward_handlePageFault {s t : State} {op : Operation} (hop : InRange op)
    (h : handlePageFault s op = some t)
    (hs : ForwardConsistent s.pageTables s.physicalMemory) :
    ForwardConsistent t.pageTables t.physicalMemory := by
  rcases handlePageFault_cases h with ⟨i, hi, hinst⟩ | ⟨_, u, r, hev, hinst⟩
  · refine forward_installPage hop hinst hs ?_
    intro p v hp hv hval hpfn
    have h2 := (hs p v hp hv hval).2.1
    rw [hpfn] at h2
    have h3 : (s.physicalMemory i).avail = true := hi.2.1
    rw [h3] at h2
    cases h2
  · have hrel : ∃ s0 : State, s0.pageTables = s.pageTables ∧
        s0.physicalMemory = s.physicalMemory ∧ releaseFrame s0 r = some u ∨
        (u = s ∧ r = NO_VICTIM) := by
      rcases evictPage_cases hev with ⟨_, h1⟩ | ⟨_, _, h1⟩ | ⟨_, _, _, h1⟩ | ⟨_, _, _, h1, h2⟩
      · exact ⟨s, Or.inl ⟨rfl, rfl, h1⟩⟩
      · exact ⟨countWriteBack s, Or.inl ⟨rfl, rfl, h1⟩⟩
      · exact ⟨countWriteBack s, Or.inl ⟨rfl, rfl, h1⟩⟩
      · exact ⟨s, Or.inr ⟨h1, h2⟩⟩
    obtain ⟨s0, ⟨e1, e2, hr⟩ | ⟨_, hr⟩⟩ := hrel
    · have hs0 : ForwardConsistent s0.pageTables s0.physicalMemory := by rw [e1, e2]; exact hs
      obtain ⟨hu, hfree⟩ := forward_releaseFrame hr hs0
      exact forward_installPage hop hinst hu hfree
    · have := (installPage_some hinst).1
      rw [hr] at this
      unfold NO_VICTIM NUM_PHYSICAL_PAGES at this
      omega

theorem forward_performOp {s t : State} {op : Operation} (hop : InRange op)
    (h : performOp s op = some t) (hs : ForwardConsistent s.pageTables s.physicalMemory) :
    ForwardConsistent t.pageTables t.physicalMemory := by
  have hk := inRange_lt hop
  cases hv : (s.pageTables (ptIndex op.pid op.virtualPageNum)).valid with
  | true =>
    rw [performOp_hit hk hv] at h
    exact forward_touchPage h hs
  | false =>
    rw [performOp_fault hk hv] at h
    simp only [Option.bind_eq_some] at h
    obtain ⟨u, hu, ht⟩ := h
    exact forward_touchPage ht (forward_handlePageFault hop hu hs)

theorem forward_processOp {s t : State} {op : Operation} (hop : InRange op)
    (h : processOp s op = some t) (hs : ForwardConsistent s.pageTables s.physicalMemory) :
    ForwardConsistent t.pageTables t.physicalMemory := by
  unfold processOp at h
  simp only [Option.map_eq_some'] at h
  obtain ⟨u, hu, rfl⟩ := h
  have hu2 := forward_performOp hop hu hs
  obtain ⟨hpt, hm, _⟩ := agingCheck_fields u
  rw [hpt]
  exact forward_bits hu2 (fun j => ⟨(hm j).1, (hm j).2.1, (hm j).2.2.1⟩)

theorem forward_initial : ForwardConsistent initialState.pageTables initialState.physicalMemory := by
  intro p v hp hv hval
  have hk := ptIndex_lt hp hv
  simp [initialState, initDataStructs, hk] at hval

theorem reachable_of_replay :
    ∀ (ops : List Operation) (s t : State), Reachable s → (∀ op ∈ ops, InRange op) →
      replay s ops = some t → Reachable t := by
  intro ops
  induction ops with
  | nil =>
    intro s t hs _ h
    simp only [replay, Option.some.injEq] at h
    exact h ▸ hs
  | cons op ops ih =>
    intro s t hs hin h
    simp only [replay, Option.bind_eq_some] at h
    obtain ⟨u, hu, ht⟩ := h
    exact ih u t (Reachable.step hs (hin op (List.mem_cons_self _ _)) hu)
      (fun o ho => hin o (List.mem_cons_of_mem _ ho)) ht


theorem exists_firstFrame (test : rme → Bool) (s : State)
    (h : ∃ j, j < NUM_PHYSICAL_PAGES ∧ test (s.physicalMemory j) = true) :
    ∃ i, FirstFrame test s i := by
  cases hs : scanFrames test s.physicalMemory NUM_PHYSICAL_PAGES 0 with
  | some i => exact ⟨i, scan_firstFrame hs⟩
  | none =>
    obtain ⟨j, hj, ht⟩ := h
    have := scan_noFrame hs j hj
    rw [ht] at this
    cases this

theorem evicts_of_eq {s : State} {i : Nat}
    (h : evictPage s = (releaseFrame s i).map (fun t => (t, i)) ∨
      evictPage s = (releaseFrame (countWriteBack s) i).map (fun t => (t, i))) : Evicts s i := by
  constructor
  · intro hown
    rcases h with h | h
    · exact ⟨_, by rw [h, releaseFrame_eq hown]; rfl⟩
    · have hown2 : OwnerInTable (countWriteBack s) i := hown
      exact ⟨_, by rw [h, releaseFrame_eq hown2]; rfl⟩
  · intro t r hr
    rcases h with h | h <;>
    · rw [h] at hr
      simp only [Option.map_eq_some', Prod.mk.injEq] at hr
      obtain ⟨_, _, _, h2⟩ := hr
      exact h2.symm

theorem sampleState_reachable : Reachable sampleState :=
  reachable_of_replay sampleTrace initialState sampleState Reachable.init (by decide) rfl

/-! ## Filling the free frames by reads of distinct pages -/

theorem agingCheck_skip {s : State} (h1 : 0 < s.numMemoryAccesses)
    (h2 : s.numMemoryAccesses < 200) : agingCheck s = s := by
  unfold agingCheck
  rw [if_neg]
  rw [Int.tmod_eq_of_lt (le_of_lt h1) h2]
  omega

theorem filled_initial : Filled [] initialState := by
  refine ⟨rfl, rfl, rfl, ?_, ?_, ?_, ?_⟩
  · intro i hi; simp at hi
  · intro i _ hi; simp [initialState, initDataStructs, hi]
  · intro p v hp hv hval
    have hk := ptIndex_lt hp hv
    simp [initialState, initDataStructs, hk] at hval
  · intro op hop; simp at hop

theorem filled_invalid {done : List Operation} {s : State} {op : Operation}
    (hf : Filled done s) (hop : InRange op) (hnew : pageOf op ∉ done.map pageOf) :
    (s.pageTables (ptIndex op.pid op.virtualPageNum)).valid = false := by
  cases hv : (s.pageTables (ptIndex op.pid op.virtualPageNum)).valid with
  | false => rfl
  | true => exact absurd (hf.2.2.2.2.2.1 op.pid op.virtualPageNum hop.1 hop.2 hv) hnew

theorem filled_step {done : List Operation} {s : State} {op : Operation}
    (hf : Filled done s) (hlen : done.length < NUM_PHYSICAL_PAGES) (hop : InRange op)
    (hrd : op.accessType = AccessType.READ) (hnew : pageOf op ∉ done.map pageOf) :
    ∃ t, processOp s op = some t ∧ Filled (done ++ [op]) t := by
  obtain ⟨c1, c2, c3, hocc, hfree, hval, hdone⟩ := hf
  have hk := inRange_lt hop
  have hinv := filled_invalid ⟨c1, c2, c3, hocc, hfree, hval, hdone⟩ hop hnew
  have hfirst : FirstFrame (fun f => f.avail) (countFault s) done.length :=
    ⟨hlen, hfree _ (le_refl _) hlen, fun j hj => (hocc j hj).1⟩
  obtain ⟨u, hu⟩ := installPage_isSome (countFault s) op hlen hk
  obtain ⟨_, _, upt, umem, uc1, uc2, uc3⟩ := installPage_some hu
  have hpfn : (u.pageTables (ptIndex op.pid op.virtualPageNum)).pfn = done.length := by
    rw [upt, Function.update_same]
  obtain ⟨t, ht⟩ := touchPage_isSome u op hk (by rw [hpfn]; exact hlen)
  obtain ⟨_, _, tpt, tcore, tother, tref, tdirty, tc1, tc2, tc3⟩ := touchPage_some ht
  rw [hpfn] at tother tref tdirty
  have hperf : performOp s op = some t := by
    rw [performOp_fault hk hinv, handlePageFault_free hfirst, hu]
    exact ht
  have hlen2 : ((done ++ [op]).length : Int) = (done.length : Int) + 1 := by
    simp
  have e1 : t.numMemoryAccesses = (done.length : Int) + 1 := by
    rw [tc1, uc1]; show s.numMemoryAccesses + 1 = _; rw [c1]
  have hlt : (done.length : Int) < 32 := by
    unfold NUM_PHYSICAL_PAGES at hlen; omega
  have hag : agingCheck t = t := agingCheck_skip (by omega) (by omega)
  refine ⟨t, by unfold processOp; rw [hperf, Option.map_some', hag], ?_⟩
  have umem_old : ∀ j, j ≠ done.length → u.physicalMemory j = s.physicalMemory j := by
    intro j hj
    rw [umem, Function.update_noteq hj]
    rfl
  have umem_new : (u.physicalMemory done.length).avail = false ∧
      (u.physicalMemory done.length).dirty = false := by
    rw [umem, Function.update_same]
    exact ⟨rfl, rfl⟩
  refine ⟨by rw [hlen2]; exact e1, ?_, ?_, ?_, ?_, ?_, ?_⟩
  · rw [hlen2, tc2, uc2]; show s.numPageFaults + 1 = _; rw [c2]
  · rw [hlen2, tc3, uc3]; show s.numDiskAccesses + 1 = _; rw [c3]
  · intro i hi
    simp only [List.length_append, List.length_singleton] at hi
    by_cases hil : i = done.length
    · subst hil
      refine ⟨by rw [(tcore _).1]; exact umem_new.1, ?_, tref⟩
      rw [tdirty, hrd]
      simpa using umem_new.2
    · rw [tother i hil, umem_old i hil]
      exact hocc i (by omega)
  · intro i hi1 hi2
    simp only [List.length_append, List.length_singleton] at hi1
    rw [(tcore i).1, umem_old i (by omega)]
    exact hfree i (by omega) hi2
  · intro p v hp hv hpv
    rw [tpt, upt] at hpv
    rw [List.map_append, List.mem_append]
    by_cases hkk : ptIndex p v = ptIndex op.pid op.virtualPageNum
    · obtain ⟨rfl, rfl⟩ := ptIndex_inj hv hop.2 hkk
      right
      simp [pageOf]
    · rw [Function.update_noteq hkk] at hpv
      exact Or.inl (hval p v hp hv hpv)
  · intro o ho
    rw [List.mem_append, List.mem_singleton] at ho
    rw [tpt, upt]
    rcases ho with ho | rfl
    · refine ⟨(hdone o ho).1, ?_⟩
      have hne : ptIndex o.pid o.virtualPageNum ≠ ptIndex op.pid op.virtualPageNum := by
        intro he
        obtain ⟨e1, e2⟩ := ptIndex_inj (hdone o ho).1.2 hop.2 he
        apply hnew
        rw [List.mem_map]
        exact ⟨o, ho, by simp [pageOf, e1, e2]⟩
      rw [Function.update_noteq hne]
      exact (hdone o ho).2
    · refine ⟨hop, ?_⟩
      rw [Function.update_same]

theorem filled_replay :
    ∀ (ops done : List Operation) (s : State), Filled done s →
      done.length + ops.length ≤ NUM_PHYSICAL_PAGES → DistinctReads (done ++ ops) →
      ∃ t, replay s ops = some t ∧ Filled (done ++ ops) t := by
  intro ops
  induction ops with
  | nil =>
    intro done s hf _ _
    exact ⟨s, rfl, by simpa using hf⟩
  | cons op ops ih =>
    intro done s hf hlen hd
    obtain ⟨hin, hrd, hnd⟩ := hd
    simp only [List.length_cons] at hlen
    have hmem : op ∈ done ++ op :: ops := by simp
    have hnew : pageOf op ∉ done.map pageOf := by
      rw [List.map_append, List.map_cons] at hnd
      have := (List.nodup_append.mp hnd).2.2
      intro hc
      exact this hc (List.mem_cons_self _ _)
    obtain ⟨u, hu, hfu⟩ := filled_step hf (by omega) (hin op hmem) (hrd op hmem) hnew
    have heq : (done ++ [op]) ++ ops = done ++ op :: ops := by simp
    obtain ⟨t, ht, hft⟩ := ih (done ++ [op]) u hfu
      (by simp only [List.length_append, List.length_singleton]; omega)
      (by rw [heq]; exact ⟨hin, hrd, hnd⟩)
    refine ⟨t, ?_, by rw [← heq]; exact hft⟩
    simp only [replay, hu, Option.some_bind]
    exact ht

/-! ## Counters and the faulting entry -/

theorem evictPage_counters {s t : State} {r : Nat} (h : evictPage s = some (t, r)) :
    t.numMemoryAccesses = s.numMemoryAccesses ∧ t.numPageFaults = s.numPageFaults ∧
    (t.numDiskAccesses = s.numDiskAccesses ∨ t.numDiskAccesses = s.numDiskAccesses + 1) := by
  rcases evictPage_cases h with ⟨_, h1⟩ | ⟨_, _, h1⟩ | ⟨_, _, _, h1⟩ | ⟨_, _, _, h1, _⟩
  · obtain ⟨_, _, _, c1, c2, c3⟩ := releaseFrame_some h1
    exact ⟨c1, c2, Or.inl c3⟩
  · obtain ⟨_, _, _, c1, c2, c3⟩ := releaseFrame_some h1
    exact ⟨c1, c2, Or.inr c3⟩
  · obtain ⟨_, _, _, c1, c2, c3⟩ := releaseFrame_some h1
    exact ⟨c1, c2, Or.inr c3⟩
  · subst h1
    exact ⟨rfl, rfl, Or.inl rfl⟩

/-- What `installPage` leaves behind at the entry and the frame of the operation. -/
theorem installPage_result {s u : State} {op : Operation} {idx : Nat}
    (h : installPage s op idx = some u) :
    idx < NUM_PHYSICAL_PAGES ∧
    u.pageTables (ptIndex op.pid op.virtualPageNum) = { valid := true, pfn := idx } ∧
    (u.physicalMemory idx).avail = false ∧ (u.physicalMemory idx).dirty = false ∧
    (u.physicalMemory idx).proc = op.pid ∧ (u.physicalMemory idx).vpn = op.virtualPageNum := by
  obtain ⟨hidx, _, upt, umem, _⟩ := installPage_some h
  rw [upt, umem, Function.update_same, Function.update_same]
  exact ⟨hidx, rfl, rfl, rfl, rfl, rfl⟩

theorem handlePageFault_result {s u : State} {op : Operation}
    (h : handlePageFault s op = some u) :
    ∃ idx, idx < NUM_PHYSICAL_PAGES ∧
      u.pageTables (ptIndex op.pid op.virtualPageNum) = { valid := true, pfn := idx } ∧
      (u.physicalMemory idx).avail = false ∧ (u.physicalMemory idx).dirty = false ∧
      (u.physicalMemory idx).proc = op.pid ∧ (u.physicalMemory idx).vpn = op.virtualPageNum ∧
      u.numMemoryAccesses = s.numMemoryAccesses ∧ u.numPageFaults = s.numPageFaults ∧
      (u.numDiskAccesses = s.numDiskAccesses + 1 ∨ u.numDiskAccesses = s.numDiskAccesses + 2) := by
  rcases handlePageFault_cases h with ⟨i, _, hinst⟩ | ⟨_, v, r, hev, hinst⟩
  · obtain ⟨r1, r2, r3, r4, r5, r6⟩ := installPage_result hinst
    obtain ⟨_, _, _, _, c1, c2, c3⟩ := installPage_some hinst
    exact ⟨i, r1, r2, r3, r4, r5, r6, c1, c2, Or.inl c3⟩
  · obtain ⟨r1, r2, r3, r4, r5, r6⟩ := installPage_result hinst
    obtain ⟨_, _, _, _, c1, c2, c3⟩ := installPage_some hinst
    obtain ⟨d1, d2, d3⟩ := evictPage_counters hev
    refine ⟨r, r1, r2, r3, r4, r5, r6, by rw [c1, d1], by rw [c2, d2], ?_⟩
    rcases d3 with d3 | d3
    · exact Or.inl (by rw [c3, d3])
    · exact Or.inr (by rw [c3, d3]; omega)

/-- The result of `touchPage` on the frame the entry of the operation names. -/
theorem touchPage_entry {u t : State} {op : Operation} {idx : Nat}
    (he : (u.pageTables (ptIndex op.pid op.virtualPageNum)).pfn = idx)
    (h : touchPage u op = some t) :
    t.pageTables = u.pageTables ∧
    (t.physicalMemory idx).avail = (u.physicalMemory idx).avail ∧
    (t.physicalMemory idx).proc = (u.physicalMemory idx).proc ∧
    (t.physicalMemory idx).vpn = (u.physicalMemory idx).vpn ∧
    (t.physicalMemory idx).referenced = true ∧
    (t.physicalMemory idx).dirty =
      (if op.accessType = AccessType.WRITE then true else (u.physicalMemory idx).dirty) ∧
    t.numMemoryAccesses = u.numMemoryAccesses + 1 ∧ t.numPageFaults = u.numPageFaults ∧
    t.numDiskAccesses = u.numDiskAccesses := by
  obtain ⟨_, _, tpt, tcore, _, tref, tdirty, c1, c2, c3⟩ := touchPage_some h
  rw [he] at tref tdirty
  exact ⟨tpt, (tcore idx).1, (tcore idx).2.1, (tcore idx).2.2, tref, tdirty, c1, c2, c3⟩

/-- A fault, seen from `performOp`: the two stages and their intermediate state. -/
theorem performOp_fault_some {s t : State} {op : Operation}
    (hk : ptIndex op.pid op.virtualPageNum < PT_SIZE)
    (hv : (s.pageTables (ptIndex op.pid op.virtualPageNum)).valid = false)
    (h : performOp s op = some t) :
    ∃ u, handlePageFault (countFault s) op = some u ∧ touchPage u op = some t := by
  rw [performOp_fault hk hv] at h
  simpa only [Option.bind_eq_some] using h

theorem fullTable_consistent (r d : Nat) : ReverseMapConsistent (fullTable r d) := by
  rw [reverseMapConsistent_iff]
  intro p v hp hv hval
  by_cases hk : ptIndex p v < NUM_PHYSICAL_PAGES
  · have h2 : ptIndex p v < 32 := hk
    unfold ptIndex NUM_PTES at h2
    have hp0 : p = 0 := by omega
    subst hp0
    have hpt : (fullTable r d).pageTables (ptIndex 0 v) = { valid := true, pfn := ptIndex 0 v } := by
      simp [fullTable, hk]
    rw [hpt]
    refine ⟨hk, rfl, rfl, ?_⟩
    simp [fullTable, ptIndex]
  · simp [fullTable, hk] at hval

/-! ## Counters across one operation -/

theorem processOp_some {s t : State} {op : Operation} (h : processOp s op = some t) :
    ∃ u, performOp s op = some u ∧ t = agingCheck u := by
  unfold processOp at h
  simp only [Option.map_eq_some'] at h
  obtain ⟨u, hu, rfl⟩ := h
  exact ⟨u, hu, rfl⟩

/-- The frame `evictPage` returns passed the test of one of its three loops. -/
theorem evictPage_victim_bits {s t : State} {i : Nat} (h : evictPage s = some (t, i))
    (hi : i < NUM_PHYSICAL_PAGES) :
    pass1 (s.physicalMemory i) = true ∨ pass2 (s.physicalMemory i) = true ∨
      pass3 (s.physicalMemory i) = true := by
  rcases evictPage_cases h with ⟨h1, _⟩ | ⟨_, h1, _⟩ | ⟨_, _, h1, _⟩ | ⟨_, _, _, _, h2⟩
  · exact Or.inl h1.2.1
  · exact Or.inr (Or.inl h1.2.1)
  · exact Or.inr (Or.inr h1.2.1)
  · rw [h2] at hi
    exact absurd hi (by decide)

/-! ## The reverse map leads back to the page table -/

theorem backward_release {pt : Nat → pte} {mem : Nat → rme} {i : Nat}
    (h : BackwardConsistent pt mem) (hi : i < NUM_PHYSICAL_PAGES)
    (hocc : (mem i).avail = false) :
    BackwardExcept
      (Function.update pt (ptIndex (mem i).proc (mem i).vpn)
        { pt (ptIndex (mem i).proc (mem i).vpn) with valid := false })
      (Function.update mem i { mem i with avail := true }) i ∧
    ∀ k, (pt k).valid = false →
      ((Function.update pt (ptIndex (mem i).proc (mem i).vpn)
        { pt (ptIndex (mem i).proc (mem i).vpn) with valid := false }) k).valid = false := by
  constructor
  · intro j hj hji hav
    rw [Function.update_noteq hji] at hav ⊢
    obtain ⟨b1, b2, b3, b4⟩ := h j hj hav
    obtain ⟨_, _, _, a4⟩ := h i hi hocc
    have hne : ptIndex (mem j).proc (mem j).vpn ≠ ptIndex (mem i).proc (mem i).vpn := by
      intro he
      rw [he, a4] at b4
      exact hji b4.symm
    rw [Function.update_noteq hne]
    exact ⟨b1, b2, b3, b4⟩
  · intro k hk
    by_cases hki : k = ptIndex (mem i).proc (mem i).vpn
    · rw [hki, Function.update_same]
    · rw [Function.update_noteq hki]
      exact hk

theorem backward_install {pt : Nat → pte} {mem : Nat → rme} {op : Operation} {idx : Nat}
    (hop : InRange op) (hidx : idx < NUM_PHYSICAL_PAGES) (h : BackwardExcept pt mem idx)
    (hinv : (pt (ptIndex op.pid op.virtualPageNum)).valid = false) :
    BackwardConsistent
      (Function.update pt (ptIndex op.pid op.virtualPageNum) { valid := true, pfn := idx })
      (Function.update mem idx
        { mem idx with avail := false, proc := op.pid, vpn := op.virtualPageNum, dirty := false }) := by
  intro j hj hav
  by_cases hji : j = idx
  · subst hji
    rw [Function.update_same]
    show op.pid < NUM_PROCESSES ∧ op.virtualPageNum < NUM_PTES ∧ _
    rw [Function.update_same]
    exact ⟨hop.1, hop.2, rfl, rfl⟩
  · rw [Function.update_noteq hji] at hav ⊢
    obtain ⟨b1, b2, b3, b4⟩ := h j hj hji hav
    have hne : ptIndex (mem j).proc (mem j).vpn ≠ ptIndex op.pid op.virtualPageNum := by
      intro he
      rw [he, hinv] at b3
      cases b3
    rw [Function.update_noteq hne]
    exact ⟨b1, b2, b3, b4⟩

theorem backward_bits {pt : Nat → pte} {mem mem2 : Nat → rme} (h : BackwardConsistent pt mem)
    (hm : ∀ j, (mem2 j).avail = (mem j).avail ∧ (mem2 j).proc = (mem j).proc ∧
      (mem2 j).vpn = (mem j).vpn) : BackwardConsistent pt mem2 := by
  intro j hj hav
  obtain ⟨m1, m2, m3⟩ := hm j
  rw [m1] at hav
  rw [m2, m3]
  exact h j hj hav

theorem backward_handlePageFault {s t : State} {op : Operation} (hop : InRange op)
    (h : handlePageFault s op = some t)
    (hs : BackwardConsistent s.pageTables s.physicalMemory)
    (hinv : (s.pageTables (ptIndex op.pid op.virtualPageNum)).valid = false) :
    BackwardConsistent t.pageTables t.physicalMemory := by
  rcases handlePageFault_cases h with ⟨i, hi, hinst⟩ | ⟨hfull, u, r, hev, hinst⟩
  · obtain ⟨hidx, _, tpt, tmem, _⟩ := installPage_some hinst
    rw [tpt, tmem]
    exact backward_install hop hidx (fun j hj _ hav => hs j hj hav) hinv
  · obtain ⟨hidx, _, tpt, tmem, _⟩ := installPage_some hinst
    have hrel : ∃ s0 : State, s0.pageTables = s.pageTables ∧
        s0.physicalMemory = s.physicalMemory ∧ releaseFrame s0 r = some u := by
      rcases evictPage_cases hev with ⟨_, h1⟩ | ⟨_, _, h1⟩ | ⟨_, _, _, h1⟩ | ⟨_, _, _, _, h2⟩
      · exact ⟨s, rfl, rfl, h1⟩
      · exact ⟨countWriteBack s, rfl, rfl, h1⟩
      · exact ⟨countWriteBack s, rfl, rfl, h1⟩
      · rw [h2] at hidx
        exact absurd hidx (by decide)
    obtain ⟨s0, e1, e2, hr⟩ := hrel
    obtain ⟨_, upt, umem, _⟩ := releaseFrame_some hr
    rw [e1, e2] at upt
    rw [e2] at umem
    have hocc : (s.physicalMemory r).avail = false := hfull r hidx
    obtain ⟨hex, hkeep⟩ := backward_release hs hidx hocc
    rw [tpt, tmem, upt, umem]
    exact backward_install hop hidx hex (hkeep _ hinv)

theorem backward_performOp {s t : State} {op : Operation} (hop : InRange op)
    (h : performOp s op = some t) (hs : BackwardConsistent s.pageTables s.physicalMemory) :
    BackwardConsistent t.pageTables t.physicalMemory := by
  have hk := inRange_lt hop
  cases hv : (s.pageTables (ptIndex op.pid op.virtualPageNum)).valid with
  | true =>
    rw [performOp_hit hk hv] at h
    obtain ⟨_, _, tpt, tcore, _⟩ := touchPage_some h
    rw [tpt]
    exact backward_bits hs tcore
  | false =>
    obtain ⟨u, hu, ht⟩ := performOp_fault_some hk hv h
    obtain ⟨_, _, tpt, tcore, _⟩ := touchPage_some ht
    rw [tpt]
    exact backward_bits (backward_handlePageFault hop hu hs hv) tcore

theorem backward_processOp {s t : State} {op : Operation} (hop : InRange op)
    (h : processOp s op = some t) (hs : BackwardConsistent s.pageTables s.physicalMemory) :
    BackwardConsistent t.pageTables t.physicalMemory := by
  obtain ⟨u, hu, rfl⟩ := processOp_some h
  obtain ⟨hpt, hm, _⟩ := agingCheck_fields u
  rw [hpt]
  exact backward_bits (backward_performOp hop hu hs)
    (fun j => ⟨(hm j).1, (hm j).2.1, (hm j).2.2.1⟩)

theorem backward_initial :
    BackwardConsistent initialState.pageTables initialState.physicalMemory := by
  intro j hj hav
  simp [initialState, initDataStructs, hj] at hav

theorem reachable_backward {s : State} (h : Reachable s) :
    BackwardConsistent s.pageTables s.physicalMemory := by
  induction h with
  | init => exact backward_initial
  | step _ hop hstep ih => exact backward_processOp hop hstep ih

/-- If every owner designates a record of the page table, `evictPage` comes to its end. -/
theorem evictPage_defined (s : State) (h : ∀ i, i < NUM_PHYSICAL_PAGES → OwnerInTable s i) :
    ∃ r, evictPage s = some r := by
  have hcw : ∀ i, i < NUM_PHYSICAL_PAGES → OwnerInTable (countWriteBack s) i := h
  cases h1 : scanFrames pass1 s.physicalMemory NUM_PHYSICAL_PAGES 0 with
  | some i =>
    have hf := scan_firstFrame h1
    exact ⟨_, by rw [evictPage_pass1 hf, releaseFrame_eq (h i hf.1)]; rfl⟩
  | none =>
    cases h2 : scanFrames pass2 s.physicalMemory NUM_PHYSICAL_PAGES 0 with
    | some i =>
      have hf := scan_firstFrame h2
      exact ⟨_, by rw [evictPage_pass2 (scan_noFrame h1) hf, releaseFrame_eq (hcw i hf.1)]; rfl⟩
    | none =>
      cases h3 : scanFrames pass3 s.physicalMemory NUM_PHYSICAL_PAGES 0 with
      | some i =>
        have hf := scan_firstFrame h3
        exact ⟨_, by
          rw [evictPage_pass3 (scan_noFrame h1) (scan_noFrame h2) hf,
            releaseFrame_eq (hcw i hf.1)]; rfl⟩
      | none =>
        exact ⟨_, evictPage_noVictim (scan_noFrame h1) (scan_noFrame h2) (scan_noFrame h3)⟩

/-! ## Frames are filled in index order -/

theorem ptIndex_decomp {k : Nat} (hk : k < PT_SIZE) :
    k / NUM_PTES < NUM_PROCESSES ∧ k % NUM_PTES < NUM_PTES ∧
      ptIndex (k / NUM_PTES) (k % NUM_PTES) = k := by
  unfold PT_SIZE NUM_PROCESSES NUM_PTES at hk
  unfold ptIndex NUM_PROCESSES NUM_PTES
  omega

theorem reachable_forward {s : State} (h : Reachable s) :
    ForwardConsistent s.pageTables s.physicalMemory := by
  induction h with
  | init => exact forward_initial
  | step _ hop hstep ih => exact forward_processOp hop hstep ih

/-! ## The claims -/

/-- C1. Reverse-map consistency is an invariant of the simulation: it holds in the state
produced by `initDataStructs` and after every completed in-range operation (`performOp`
followed by the aging check). In every such state each valid page-table entry
`pageTables[p][v]` names a frame below 32 that is occupied and owned by `(p, v)`, and no
valid entry names an available frame. -/
theorem reverseMap_invariant (s : State) (h : Reachable s) : ReverseMapConsistent s := by
  rw [reverseMapConsistent_iff]
  induction h with
  | init => exact forward_initial
  | step _ hop hstep ih => exact forward_processOp hop hstep ih

/-- Witness of C1: the invariant on the state reached by `sampleTrace`. -/
theorem reverseMap_invariant_witness : Reachable sampleState ∧ ReverseMapConsistent sampleState :=
  ⟨sampleState_reachable, reverseMap_invariant sampleState sampleState_reachable⟩

/-- C2, evaluation at the failing input. After the 32 operations `READ` of the pages
`0..31` of process `0` the state is reachable and every frame is occupied, and yet no
loop of `evictPage` finds a frame (all of them are referenced and clean): it returns
`(uint16_t)-1 = 65535`, and the next fault, which writes `physicalMemory[65535]`, has no
defined result. -/
theorem evictPage_finds_no_victim :
    ∃ s, replay initialState (readsFrom 0 32) = some s ∧ Reachable s ∧
      (∀ i, i < NUM_PHYSICAL_PAGES → (s.physicalMemory i).avail = false) ∧
      (evictPage s).map Prod.snd = some NO_VICTIM ∧
      InRange { pid := 0, virtualPageNum := 32, accessType := AccessType.READ } ∧
      performOp s { pid := 0, virtualPageNum := 32, accessType := AccessType.READ } = none := by
  refine ⟨_, rfl, ?_, ?_, ?_, ?_, ?_⟩
  · exact reachable_of_replay (readsFrom 0 32) initialState _ Reachable.init (by decide) rfl
  · decide
  · rfl
  · decide
  · rfl


/-- C3, counterexample. The trace of the claim, 33 operations `READ` of the pages `0..32`
of process `0`, does not produce a state with 33 page faults and 33 disk accesses: the
replay has no defined result, because at the 33rd fault the first loop of `evictPage`
(as well as the other two) finds no frame. -/
theorem thirtyThree_reads_counterexample :
    DistinctReads (readsFrom 0 33) ∧ (readsFrom 0 33).length = 33 ∧
    (¬ ∃ s, replay initialState (readsFrom 0 33) = some s ∧ s.numPageFaults = 33 ∧
      s.numDiskAccesses = 33) ∧
    ((replay initialState (readsFrom 0 32)).map
      (fun s => scanFrames pass1 s.physicalMemory NUM_PHYSICAL_PAGES 0)) = some none := by
  refine ⟨⟨by decide, by decide, by decide⟩, by decide, ?_, by rfl⟩
  have h : replay initialState (readsFrom 0 33) = none := rfl
  rw [h]
  simp

/-- C3, amended. Replaying from the initial state any 32 operations `READ` on pairwise
distinct in-range pages produces 32 page faults and 32 disk accesses; the page of every
operation is still mapped (no eviction took place) and all 32 frames are occupied,
referenced and clean. A further `READ` of another in-range page therefore finds its
entry invalid and no frame available, and the first loop of `evictPage` (unreferenced and
clean) finds no frame. -/
theorem thirtyTwo_reads (ops : List Operation) (hlen : ops.length = 32)
    (hd : DistinctReads ops) :
    ∃ s, replay initialState ops = some s ∧ s.numPageFaults = 32 ∧ s.numDiskAccesses = 32 ∧
      (∀ op ∈ ops, (s.pageTables (ptIndex op.pid op.virtualPageNum)).valid = true) ∧
      (∀ i, i < NUM_PHYSICAL_PAGES → (s.physicalMemory i).avail = false ∧
        (s.physicalMemory i).referenced = true ∧ (s.physicalMemory i).dirty = false) ∧
      ∀ op, InRange op → pageOf op ∉ ops.map pageOf →
        (s.pageTables (ptIndex op.pid op.virtualPageNum)).valid = false ∧
        NoFrame (fun f => f.avail) s ∧ NoFrame pass1 s := by
  obtain ⟨s, hs, hf⟩ := filled_replay ops [] initialState filled_initial
    (by simp [hlen, NUM_PHYSICAL_PAGES]) (by simpa using hd)
  rw [List.nil_append] at hf
  have hocc : ∀ i, i < NUM_PHYSICAL_PAGES → (s.physicalMemory i).avail = false ∧
      (s.physicalMemory i).dirty = false ∧ (s.physicalMemory i).referenced = true := by
    intro i hi
    exact hf.2.2.2.1 i (by rw [hlen]; exact hi)
  refine ⟨s, hs, by rw [hf.2.1, hlen]; rfl, by rw [hf.2.2.1, hlen]; rfl,
    fun op hop => (hf.2.2.2.2.2.2 op hop).2,
    fun i hi => ⟨(hocc i hi).1, (hocc i hi).2.2, (hocc i hi).2.1⟩, ?_⟩
  intro op hop hnew
  refine ⟨filled_invalid hf hop hnew, fun i hi => (hocc i hi).1, ?_⟩
  intro i hi
  simp [pass1, (hocc i hi).2.2]

/-- Witness of C3 (amended): the reads of the pages `0..31` of process `0`. -/
theorem thirtyTwo_reads_witness :
    ∃ s, replay initialState (readsFrom 0 32) = some s ∧ s.numPageFaults = 32 ∧
      s.numDiskAccesses = 32 ∧
      (∀ op ∈ readsFrom 0 32, (s.pageTables (ptIndex op.pid op.virtualPageNum)).valid = true) ∧
      (∀ i, i < NUM_PHYSICAL_PAGES → (s.physicalMemory i).avail = false ∧
        (s.physicalMemory i).referenced = true ∧ (s.physicalMemory i).dirty = false) ∧
      ∀ op, InRange op → pageOf op ∉ (readsFrom 0 32).map pageOf →
        (s.pageTables (ptIndex op.pid op.virtualPageNum)).valid = false ∧
        NoFrame (fun f => f.avail) s ∧ NoFrame pass1 s :=
  thirtyTwo_reads (readsFrom 0 32) (by decide) ⟨by decide, by decide, by decide⟩


/-- C5. Victim selection of `evictPage` is a strict three-tier first-match scan in index
order, for every frame table: if some frame is unreferenced and clean, the call selects
the first such frame; otherwise, if some frame is unreferenced and dirty, the first such
frame; otherwise, if some frame is referenced and dirty, the first such frame. -/
theorem evictPage_victim_selection (s : State) :
    ((∃ j, j < NUM_PHYSICAL_PAGES ∧ pass1 (s.physicalMemory j) = true) →
      ∃ i, FirstFrame pass1 s i ∧ Evicts s i) ∧
    (NoFrame pass1 s → (∃ j, j < NUM_PHYSICAL_PAGES ∧ pass2 (s.physicalMemory j) = true) →
      ∃ i, FirstFrame pass2 s i ∧ Evicts s i) ∧
    (NoFrame pass1 s → NoFrame pass2 s →
      (∃ j, j < NUM_PHYSICAL_PAGES ∧ pass3 (s.physicalMemory j) = true) →
      ∃ i, FirstFrame pass3 s i ∧ Evicts s i) := by
  refine ⟨?_, ?_, ?_⟩
  · intro hex
    obtain ⟨i, hi⟩ := exists_firstFrame pass1 s hex
    exact ⟨i, hi, evicts_of_eq (Or.inl (evictPage_pass1 hi))⟩
  · intro h1 hex
    obtain ⟨i, hi⟩ := exists_firstFrame pass2 s hex
    exact ⟨i, hi, evicts_of_eq (Or.inr (evictPage_pass2 h1 hi))⟩
  · intro h1 h2 hex
    obtain ⟨i, hi⟩ := exists_firstFrame pass3 s hex
    exact ⟨i, hi, evicts_of_eq (Or.inr (evictPage_pass3 h1 h2 hi))⟩

/-- Witness of C5: in `fullTable 4 2` the frames 0 and 1 are the unreferenced clean ones
(frame 1 shows that there is one), and the first loop selects the first of them. -/
theorem evictPage_victim_selection_witness :
    ∃ i, FirstFrame pass1 (fullTable 4 2) i ∧ Evicts (fullTable 4 2) i :=
  (evictPage_victim_selection (fullTable 4 2)).1 ⟨1, by decide, rfl⟩

/-- C9. Side effects of `evictPage` are confined to the victim: when the call returns a
frame index `i` below 32 from a reverse-map consistent state, frame `i` is available and
the entry at the owner fields of frame `i` is invalid afterwards (every entry that mapped
to `i` is that one); every other frame record, every other page-table entry, the `pfn` of
that entry, the dirty, referenced, proc and vpn fields of frame `i`, and the counters
`numMemoryAccesses` and `numPageFaults` are unchanged. -/
theorem evictPage_frame_effect (s t : State) (i : Nat) (hs : ReverseMapConsistent s)
    (h : evictPage s = some (t, i)) (hi : i < NUM_PHYSICAL_PAGES) :
    (t.physicalMemory i).avail = true ∧
    (t.pageTables (ptIndex (s.physicalMemory i).proc (s.physicalMemory i).vpn)).valid = false ∧
    (∀ p v, p < NUM_PROCESSES → v < NUM_PTES → (s.pageTables (ptIndex p v)).valid = true →
      (s.pageTables (ptIndex p v)).pfn = i →
      p = (s.physicalMemory i).proc ∧ v = (s.physicalMemory i).vpn) ∧
    (∀ j, j ≠ i → t.physicalMemory j = s.physicalMemory j) ∧
    (∀ k, k ≠ ptIndex (s.physicalMemory i).proc (s.physicalMemory i).vpn →
      t.pageTables k = s.pageTables k) ∧
    (t.pageTables (ptIndex (s.physicalMemory i).proc (s.physicalMemory i).vpn)).pfn =
      (s.pageTables (ptIndex (s.physicalMemory i).proc (s.physicalMemory i).vpn)).pfn ∧
    (t.physicalMemory i).dirty = (s.physicalMemory i).dirty ∧
    (t.physicalMemory i).referenced = (s.physicalMemory i).referenced ∧
    (t.physicalMemory i).proc = (s.physicalMemory i).proc ∧
    (t.physicalMemory i).vpn = (s.physicalMemory i).vpn ∧
    t.numMemoryAccesses = s.numMemoryAccesses ∧ t.numPageFaults = s.numPageFaults := by
  have hrel : ∃ s0 : State, s0.pageTables = s.pageTables ∧
      s0.physicalMemory = s.physicalMemory ∧ releaseFrame s0 i = some t := by
    rcases evictPage_cases h with ⟨_, h1⟩ | ⟨_, _, h1⟩ | ⟨_, _, _, h1⟩ | ⟨_, _, _, _, h2⟩
    · exact ⟨s, rfl, rfl, h1⟩
    · exact ⟨countWriteBack s, rfl, rfl, h1⟩
    · exact ⟨countWriteBack s, rfl, rfl, h1⟩
    · rw [h2] at hi
      exact absurd hi (by decide)
  obtain ⟨s0, e1, e2, hr⟩ := hrel
  obtain ⟨_, tpt, tmem, _⟩ := releaseFrame_some hr
  obtain ⟨c1, c2, _⟩ := evictPage_counters h
  rw [e1, e2] at tpt
  rw [e2] at tmem
  rw [tpt, tmem]
  refine ⟨?_, ?_, ?_, ?_, ?_, ?_, ?_, ?_, ?_, ?_, c1, c2⟩
  · rw [Function.update_same]
  · rw [Function.update_same]
  · intro p v hp hv hval hpfn
    obtain ⟨_, _, h3, h4⟩ := hs.1 p v hp hv hval
    rw [hpfn] at h3 h4
    exact ⟨h3.symm, h4.symm⟩
  · intro j hj
    rw [Function.update_noteq hj]
  · intro k hk
    rw [Function.update_noteq hk]
  all_goals rw [Function.update_same]

/-- Witness of C9: `evictPage` on `fullTable 4 2` returns frame 0. -/
theorem evictPage_frame_effect_witness :
    ∃ t, evictPage (fullTable 4 2) = some (t, 0) ∧
      (t.physicalMemory 0).avail = true ∧ (t.pageTables (ptIndex 0 0)).valid = false ∧
      (∀ j, j ≠ 0 → t.physicalMemory j = (fullTable 4 2).physicalMemory j) ∧
      t.numPageFaults = (fullTable 4 2).numPageFaults :=
  ⟨_, rfl,
    (evictPage_frame_effect (fullTable 4 2) _ 0 (fullTable_consistent 4 2) rfl (by decide)).1,
    (evictPage_frame_effect (fullTable 4 2) _ 0 (fullTable_consistent 4 2) rfl (by decide)).2.1,
    (evictPage_frame_effect (fullTable 4 2) _ 0
      (fullTable_consistent 4 2) rfl (by decide)).2.2.2.1,
    (evictPage_frame_effect (fullTable 4 2) _ 0
      (fullTable_consistent 4 2) rfl (by decide)).2.2.2.2.2.2.2.2.2.2.2⟩


/-- C12. Initial state: after `initDataStructs`, whatever the tables held before, every
entry `pageTables[p][v]` with `p < 4` and `v < 128` is invalid and every one of the 32
frames is available, clean and unreferenced. -/
theorem initDataStructs_state (s : State) :
    (∀ p v, p < NUM_PROCESSES → v < NUM_PTES →
      ((initDataStructs s).pageTables (ptIndex p v)).valid = false) ∧
    (∀ i, i < NUM_PHYSICAL_PAGES →
      ((initDataStructs s).physicalMemory i).avail = true ∧
      ((initDataStructs s).physicalMemory i).dirty = false ∧
      ((initDataStructs s).physicalMemory i).referenced = false) := by
  constructor
  · intro p v hp hv
    have hk := ptIndex_lt hp hv
    simp [initDataStructs, hk]
  · intro i hi
    simp [initDataStructs, hi]

/-- Witness of C12: `initDataStructs` on a full memory, at the entry of page 31 of
process 0 (valid before the call) and at frame 31 (occupied before the call). -/
theorem initDataStructs_state_witness :
    ((initDataStructs (fullTable 4 2)).pageTables (ptIndex 0 31)).valid = false ∧
    ((initDataStructs (fullTable 4 2)).physicalMemory 31).avail = true ∧
    ((initDataStructs (fullTable 4 2)).physicalMemory 31).dirty = false ∧
    ((initDataStructs (fullTable 4 2)).physicalMemory 31).referenced = false :=
  ⟨(initDataStructs_state (fullTable 4 2)).1 0 31 (by decide) (by decide),
    (initDataStructs_state (fullTable 4 2)).2 31 (by decide)⟩

/-- C13. A referenced-but-clean frame is never the eviction victim: for every frame
table, whenever `evictPage` returns a frame index `i` below 32, frame `i` did not have
`referenced == true` together with `dirty == false` when the call was made. -/
theorem referenced_clean_not_evicted (s t : State) (i : Nat)
    (h : evictPage s = some (t, i)) (hi : i < NUM_PHYSICAL_PAGES) :
    ¬ ((s.physicalMemory i).referenced = true ∧ (s.physicalMemory i).dirty = false) := by
  rintro ⟨hr, hd⟩
  rcases evictPage_victim_bits h hi with hb | hb | hb <;>
    simp [pass1, pass2, pass3, hr, hd] at hb

/-- Witness of C13: in `fullTable 0 3` the frames 0, 1, 2 are referenced and clean, and
`evictPage` returns frame 3, the first referenced and dirty one. -/
theorem referenced_clean_not_evicted_witness :
    ∃ t, evictPage (fullTable 0 3) = some (t, 3) ∧
      ((fullTable 0 3).physicalMemory 0).referenced = true ∧
      ((fullTable 0 3).physicalMemory 0).dirty = false ∧
      ¬ (((fullTable 0 3).physicalMemory 3).referenced = true ∧
        ((fullTable 0 3).physicalMemory 3).dirty = false) :=
  ⟨_, rfl, rfl, rfl, referenced_clean_not_evicted (fullTable 0 3) _ 3 rfl (by decide)⟩

/-- C14. Access-bit transitions of `performOp`: for every reachable state and in-range
operation, after a completed `performOp` (before the aging check) the frame named by the
entry of the operation is referenced; it is dirty if the operation is a `WRITE`; if the
operation is a `READ` that hits, the entry names the same frame as before and the dirty
bit of that frame is what it was; and if it is a `READ` that faults, the frame is clean,
whatever the dirty bit of an evicted page was. -/
theorem access_bits (s : State) (op : Operation) (_hs : Reachable s) (hop : InRange op)
    (t : State) (ht : performOp s op = some t) :
    (t.physicalMemory (t.pageTables (ptIndex op.pid op.virtualPageNum)).pfn).referenced = true ∧
    (op.accessType = AccessType.WRITE →
      (t.physicalMemory (t.pageTables (ptIndex op.pid op.virtualPageNum)).pfn).dirty = true) ∧
    (op.accessType = AccessType.READ →
      (s.pageTables (ptIndex op.pid op.virtualPageNum)).valid = true →
      (t.pageTables (ptIndex op.pid op.virtualPageNum)).pfn =
        (s.pageTables (ptIndex op.pid op.virtualPageNum)).pfn ∧
      (t.physicalMemory (t.pageTables (ptIndex op.pid op.virtualPageNum)).pfn).dirty =
        (s.physicalMemory (s.pageTables (ptIndex op.pid op.virtualPageNum)).pfn).dirty) ∧
    (op.accessType = AccessType.READ →
      (s.pageTables (ptIndex op.pid op.virtualPageNum)).valid = false →
      (t.physicalMemory (t.pageTables (ptIndex op.pid op.virtualPageNum)).pfn).dirty = false) := by
  have hk := inRange_lt hop
  cases hv : (s.pageTables (ptIndex op.pid op.virtualPageNum)).valid with
  | true =>
    rw [performOp_hit hk hv] at ht
    obtain ⟨tpt, _, _, _, tref, tdirty, _⟩ := touchPage_entry rfl ht
    rw [tpt]
    refine ⟨tref, ?_, ?_, ?_⟩
    · intro hw
      rw [tdirty, if_pos hw]
    · intro hr _
      refine ⟨rfl, ?_⟩
      rw [tdirty, if_neg (by rw [hr]; decide)]
    · intro _ hc
      cases hc
  | false =>
    obtain ⟨u, hu, htouch⟩ := performOp_fault_some hk hv ht
    obtain ⟨idx, _, r2, _, r4, _⟩ := handlePageFault_result hu
    have he : (u.pageTables (ptIndex op.pid op.virtualPageNum)).pfn = idx := by rw [r2]
    obtain ⟨tpt, _, _, _, tref, tdirty, _⟩ := touchPage_entry he htouch
    rw [tpt, he]
    refine ⟨tref, ?_, ?_, ?_⟩
    · intro hw
      rw [tdirty, if_pos hw]
    · intro _ hc
      cases hc
    · intro hr _
      rw [tdirty, if_neg (by rw [hr]; decide), r4]

/-- Witness of C14: a write to the unmapped page 7 of process 2 in the state reached by
`sampleTrace` leaves its frame referenced and dirty. -/
theorem access_bits_witness :
    ∃ t, performOp sampleState
        { pid := 2, virtualPageNum := 7, accessType := AccessType.WRITE } = some t ∧
      (t.physicalMemory (t.pageTables (ptIndex 2 7)).pfn).referenced = true ∧
      (t.physicalMemory (t.pageTables (ptIndex 2 7)).pfn).dirty = true :=
  ⟨_, rfl,
    (access_bits sampleState { pid := 2, virtualPageNum := 7, accessType := AccessType.WRITE }
      sampleState_reachable (by decide) _ rfl).1,
    (access_bits sampleState { pid := 2, virtualPageNum := 7, accessType := AccessType.WRITE }
      sampleState_reachable (by decide) _ rfl).2.1 rfl⟩

/-- C15. Free frames are taken first and in index order: for every state in which some
frame is available, `handlePageFault` (for an in-range operation) installs the page in
the available frame of smallest index by the allocation statements alone, without a call
of `evictPage`: no page-table entry is invalidated, no other entry and no other frame is
changed, and only the load is counted. `evictPage` is called exactly in the states in
which no frame is available. -/
theorem free_frame_first (s : State) (op : Operation) (hop : InRange op)
    (hex : ∃ j, j < NUM_PHYSICAL_PAGES ∧ (s.physicalMemory j).avail = true) :
    (∃ i t, FirstFrame (fun f => f.avail) s i ∧ handlePageFault s op = some t ∧
      handlePageFault s op = installPage s op i ∧
      t.pageTables (ptIndex op.pid op.virtualPageNum) = { valid := true, pfn := i } ∧
      (t.physicalMemory i).avail = false ∧ (t.physicalMemory i).proc = op.pid ∧
      (t.physicalMemory i).vpn = op.virtualPageNum ∧
      (∀ k, k ≠ ptIndex op.pid op.virtualPageNum → t.pageTables k = s.pageTables k) ∧
      (∀ k, (s.pageTables k).valid = true → (t.pageTables k).valid = true) ∧
      (∀ j, j ≠ i → t.physicalMemory j = s.physicalMemory j) ∧
      t.numDiskAccesses = s.numDiskAccesses + 1) ∧
    ∀ s2 : State, NoFrame (fun f => f.avail) s2 →
      handlePageFault s2 op = (evictPage s2).bind (fun r => installPage r.1 op r.2) := by
  refine ⟨?_, fun s2 h2 => handlePageFault_full h2⟩
  obtain ⟨i, hi⟩ := exists_firstFrame (fun f => f.avail) s hex
  obtain ⟨t, ht⟩ := installPage_isSome s op hi.1 (inRange_lt hop)
  obtain ⟨_, r2, r3, _, r5, r6⟩ := installPage_result ht
  obtain ⟨_, _, tpt, tmem, _, _, c3⟩ := installPage_some ht
  refine ⟨i, t, hi, by rw [handlePageFault_free hi, ht], handlePageFault_free hi,
    r2, r3, r5, r6, ?_, ?_, ?_, c3⟩
  · intro k hk
    rw [tpt, Function.update_noteq hk]
  · intro k hval
    by_cases hk : k = ptIndex op.pid op.virtualPageNum
    · rw [hk, r2]
    · rw [tpt, Function.update_noteq hk]
      exact hval
  · intro j hj
    rw [tmem, Function.update_noteq hj]

/-- Witness of C15: a fault in the state reached by `sampleTrace`, whose frames 0, 1, 2
are occupied, takes frame 3. -/
theorem free_frame_first_witness :
    ∃ i t, FirstFrame (fun f => f.avail) sampleState i ∧
      handlePageFault sampleState
        { pid := 2, virtualPageNum := 7, accessType := AccessType.READ } = some t ∧
      handlePageFault sampleState
        { pid := 2, virtualPageNum := 7, accessType := AccessType.READ } =
        installPage sampleState
          { pid := 2, virtualPageNum := 7, accessType := AccessType.READ } i ∧
      t.pageTables (ptIndex 2 7) = { valid := true, pfn := i } ∧
      (t.physicalMemory i).avail = false ∧ (t.physicalMemory i).proc = 2 ∧
      (t.physicalMemory i).vpn = 7 ∧
      (∀ k, k ≠ ptIndex 2 7 → t.pageTables k = sampleState.pageTables k) ∧
      (∀ k, (sampleState.pageTables k).valid = true → (t.pageTables k).valid = true) ∧
      (∀ j, j ≠ i → t.physicalMemory j = sampleState.physicalMemory j) ∧
      t.numDiskAccesses = sampleState.numDiskAccesses + 1 :=
  (free_frame_first sampleState { pid := 2, virtualPageNum := 7, accessType := AccessType.READ }
    (by decide) ⟨3, by decide, rfl⟩).1

/-- C16. Sentinel owner values are never used in a reverse lookup: in every state
reached from `initDataStructs` by completed in-range operations, every occupied frame
has `proc < NUM_PROCESSES` and `vpn < NUM_PTES` (so never the sentinels 255 and 129);
`handlePageFault`, called by `performOp` once the fault is counted, goes straight to the
allocation when a frame is available; and when no frame is available the owner fields of
every frame designate a record inside `pageTables`, so that `evictPage` comes to its end
without leaving the table. -/
theorem owners_in_range (s : State) (h : Reachable s) :
    (∀ i, i < NUM_PHYSICAL_PAGES → (s.physicalMemory i).avail = false →
      (s.physicalMemory i).proc < NUM_PROCESSES ∧ (s.physicalMemory i).vpn < NUM_PTES) ∧
    (∀ op i, FirstFrame (fun f => f.avail) (countFault s) i →
      handlePageFault (countFault s) op = installPage (countFault s) op i) ∧
    (NoFrame (fun f => f.avail) s →
      (∀ i, i < NUM_PHYSICAL_PAGES → OwnerInTable s i) ∧
      ∃ r, evictPage (countFault s) = some r) := by
  have hb := reachable_backward h
  refine ⟨fun i hi hav => ⟨(hb i hi hav).1, (hb i hi hav).2.1⟩,
    fun op i hi => handlePageFault_free hi, ?_⟩
  intro hfull
  have hown : ∀ i, i < NUM_PHYSICAL_PAGES → OwnerInTable s i := by
    intro i hi
    obtain ⟨b1, b2, _⟩ := hb i hi (hfull i hi)
    exact ptIndex_lt b1 b2
  exact ⟨hown, evictPage_defined (countFault s) hown⟩

/-- Witness of C16: the state reached by `sampleTrace`. -/
theorem owners_in_range_witness :
    (∀ i, i < NUM_PHYSICAL_PAGES → (sampleState.physicalMemory i).avail = false →
      (sampleState.physicalMemory i).proc < NUM_PROCESSES ∧
      (sampleState.physicalMemory i).vpn < NUM_PTES) ∧
    (∀ op i, FirstFrame (fun f => f.avail) (countFault sampleState) i →
      handlePageFault (countFault sampleState) op = installPage (countFault sampleState) op i) ∧
    (NoFrame (fun f => f.avail) sampleState →
      (∀ i, i < NUM_PHYSICAL_PAGES → OwnerInTable sampleState i) ∧
      ∃ r, evictPage (countFault sampleState) = some r) :=
  owners_in_range sampleState sampleState_reachable

/-- C18. Occupied frames and valid page-table entries are in bijection: in every state
reached from `initDataStructs` by completed in-range operations, every occupied frame `i`
has owner fields whose entry is valid and names `i`; two valid entries that name the same
frame are the same entry; and the number of valid entries equals the number of occupied
frames, which is at most `NUM_PHYSICAL_PAGES`. -/
theorem frames_entries_bijection (s : State) (h : Reachable s) :
    (∀ i, i < NUM_PHYSICAL_PAGES → (s.physicalMemory i).avail = false →
      (s.pageTables (ptIndex (s.physicalMemory i).proc (s.physicalMemory i).vpn)).valid = true ∧
      (s.pageTables (ptIndex (s.physicalMemory i).proc (s.physicalMemory i).vpn)).pfn = i) ∧
    (∀ p v q w, p < NUM_PROCESSES → v < NUM_PTES → q < NUM_PROCESSES → w < NUM_PTES →
      (s.pageTables (ptIndex p v)).valid = true → (s.pageTables (ptIndex q w)).valid = true →
      (s.pageTables (ptIndex p v)).pfn = (s.pageTables (ptIndex q w)).pfn → p = q ∧ v = w) ∧
    (validEntries s).card = (occupiedFrames s).card ∧
    (occupiedFrames s).card ≤ NUM_PHYSICAL_PAGES := by
  have hb := reachable_backward h
  have hf := reachable_forward h
  have hinj : ∀ p v q w, p < NUM_PROCESSES → v < NUM_PTES → q < NUM_PROCESSES →
      w < NUM_PTES → (s.pageTables (ptIndex p v)).valid = true →
      (s.pageTables (ptIndex q w)).valid = true →
      (s.pageTables (ptIndex p v)).pfn = (s.pageTables (ptIndex q w)).pfn → p = q ∧ v = w := by
    intro p v q w hp hv hq hw h1 h2 he
    obtain ⟨_, _, a3, a4⟩ := hf p v hp hv h1
    obtain ⟨_, _, b3, b4⟩ := hf q w hq hw h2
    rw [he] at a3 a4
    exact ⟨a3.symm.trans b3, a4.symm.trans b4⟩
  refine ⟨fun i hi hav => ⟨(hb i hi hav).2.2.1, (hb i hi hav).2.2.2⟩, hinj, ?_, ?_⟩
  · apply Finset.card_bij (fun k _ => (s.pageTables k).pfn)
    · intro k hk
      simp only [validEntries, Finset.mem_filter, Finset.mem_range] at hk
      obtain ⟨d1, d2, d3⟩ := ptIndex_decomp hk.1
      have hval := hk.2
      rw [← d3] at hval
      obtain ⟨a1, a2, _⟩ := hf _ _ d1 d2 hval
      rw [d3] at a1 a2
      simp only [occupiedFrames, Finset.mem_filter, Finset.mem_range]
      exact ⟨a1, a2⟩
    · intro k1 hk1 k2 hk2 he
      simp only [validEntries, Finset.mem_filter, Finset.mem_range] at hk1 hk2
      obtain ⟨d1, d2, d3⟩ := ptIndex_decomp hk1.1
      obtain ⟨e1, e2, e3⟩ := ptIndex_decomp hk2.1
      have hv1 := hk1.2
      have hv2 := hk2.2
      rw [← d3] at hv1 he
      rw [← e3] at hv2 he
      obtain ⟨r1, r2⟩ := hinj _ _ _ _ d1 d2 e1 e2 hv1 hv2 he
      rw [← d3, ← e3, r1, r2]
    · intro i hi
      simp only [occupiedFrames, Finset.mem_filter, Finset.mem_range] at hi
      obtain ⟨b1, b2, b3, b4⟩ := hb i hi.1 hi.2
      refine ⟨ptIndex (s.physicalMemory i).proc (s.physicalMemory i).vpn, ?_, b4⟩
      simp only [validEntries, Finset.mem_filter, Finset.mem_range]
      exact ⟨ptIndex_lt b1 b2, b3⟩
  · calc (occupiedFrames s).card ≤ (Finset.range NUM_PHYSICAL_PAGES).card :=
          Finset.card_le_card (Finset.filter_subset _ _)
      _ = NUM_PHYSICAL_PAGES := Finset.card_range _

set_option maxRecDepth 100000 in
/-- Witness of C18: the state reached by `sampleTrace` has three valid entries and three
occupied frames. -/
theorem frames_entries_bijection_witness :
    (validEntries sampleState).card = 3 ∧
    (validEntries sampleState).card = (occupiedFrames sampleState).card ∧
    (occupiedFrames sampleState).card ≤ NUM_PHYSICAL_PAGES :=
  ⟨by decide, (frames_entries_bijection sampleState sampleState_reachable).2.2⟩

end Pfsim
